import Mathlib

/-
  Verification development for the LoopForge loop-orchestration core.

  The definitions below are a shallow embedding of the TypeScript source:
    - parseRalphStatus, ProcessManager (startLoop, the close handler,
      stopLoop, cleanupSession, checkPlanExhausted, handleRalphStatus,
      runAutoReview) from the process-manager module, and
    - parseReviewOutput and its helpers from src/lib/ralph/reviewParser.ts.

  Conventions of the embedding:
    - JS strings are Lean String / List Char; the handful of regular
      expressions in the source are modelled by explicit backtracking-faithful
      scanning functions (leftmost match, greedy/lazy quantifier order).
      JS regex note: in the source pattern for RALPH_STATUS the escape
      written as backslash-z is an identity escape in JavaScript, i.e. it
      matches the literal letter z; the model reproduces that.
    - JSON.parse is a platform builtin, not repository code; it is modelled
      by an explicit parameter jp : String -> Option JVal (none = parse
      throws), and theorems quantify over jp.  JSON numbers are modelled
      as Int (fractional scores play no role in any claim).
    - Date.now() timestamps and reviewDurationMs are nondeterministic wall
      clock values and are left out of the review-result record.
    - Exceptions are modelled with Except / Option; a total Lean function
      models code that cannot throw.
-/

namespace LoopForge

/-! ## JS string primitives -/

/-- JS whitespace class (the ASCII part of the regex class backslash-s). -/
def jsWs (c : Char) : Bool :=
  c = ' ' || c = '\t' || c = '\n' || c = '\r' || c = '\x0b' || c = '\x0c'

/-- The single-quote character, kept out of literals. -/
def squote : Char := Char.ofNat 39

/-- JS String.prototype.trim on a character list. -/
def jsTrim (cs : List Char) : List Char :=
  ((cs.dropWhile jsWs).reverse.dropWhile jsWs).reverse

/-- JS String.prototype.trim on a String. -/
def jsTrimStr (s : String) : String :=
  String.mk (jsTrim s.data)

/-- Index of the first occurrence of pat as a contiguous sublist. -/
def findSubIdx (pat : List Char) : List Char → Option Nat
  | [] => if pat.isEmpty then some 0 else none
  | c :: rest =>
    if pat.isPrefixOf (c :: rest) then some 0
    else (findSubIdx pat rest).map (· + 1)

/-- Whether pat occurs as a contiguous sublist. -/
def containsSub (s pat : String) : Bool :=
  (findSubIdx pat.data s.data).isSome

/-- Split a character list on a separator character, keeping empty pieces
    (JS String.prototype.split with a one-character separator). -/
def splitOnChar (sep : Char) : List Char → List (List Char)
  | [] => [[]]
  | c :: rest =>
    if c = sep then [] :: splitOnChar sep rest
    else
      match splitOnChar sep rest with
      | [] => [[c]]
      | h :: t => (c :: h) :: t

/-- JS s.split of a newline on a String. -/
def splitLines (s : String) : List String :=
  (splitOnChar '\n' s.data).map String.mk

/-- JS parseInt(s, 10) with the source's fallback of 0 on NaN:
    skip leading whitespace, optional sign, then leading digits. -/
def jsParseIntOr0 (s : String) : Int :=
  let t := s.data.dropWhile jsWs
  let (neg, t) : Bool × List Char :=
    match t with
    | '-' :: r => (true, r)
    | '+' :: r => (false, r)
    | r => (false, r)
  let ds := t.takeWhile Char.isDigit
  if ds.isEmpty then 0
  else
    let n : Nat := ds.foldl (fun acc c => acc * 10 + (c.toNat - 48)) 0
    if neg then -(n : Int) else (n : Int)

/-! ## parseRalphStatus — the status-block extraction

The source regex is
  RALPH_STATUS: backslash-s* lazily-captured-any (lookahead: two newlines
  or the literal letter z)
(the intended end-of-input anchor backslash-z is an identity escape in JS,
so the block terminator is either a blank line or a literal z). -/

/-- The status-block terminator positions of the source regex lookahead:
    the suffix starts with two newlines, or with the letter z. -/
def statusTermAt : List Char → Bool
  | '\n' :: '\n' :: _ => true
  | 'z' :: _ => true
  | _ => false

/-- First index whose suffix satisfies the terminator lookahead. -/
def findTermIdx : List Char → Option Nat
  | [] => none
  | c :: rest =>
    if statusTermAt (c :: rest) then some 0
    else (findTermIdx rest).map (· + 1)

/-- Backtracking over the greedy whitespace run: try the longest run first,
    and for each run take the closest terminator (the lazy capture). -/
def captureWLoop (tail : List Char) : Nat → Option (List Char)
  | 0 => (findTermIdx tail).map (tail.take ·)
  | w + 1 =>
    match findTermIdx (tail.drop (w + 1)) with
    | some t => some ((tail.drop (w + 1)).take t)
    | none => captureWLoop tail w

/-- The captured status block after the marker (greedy whitespace, then the
    lazy capture up to the terminator lookahead). -/
def statusCapture (tail : List Char) : Option (List Char) :=
  captureWLoop tail (tail.takeWhile jsWs).length

def ralphMarker : List Char := "RALPH_STATUS:".data

/-- The block captured by the RALPH_STATUS regex, if the regex matches. -/
def capturedBlock (cs : List Char) : Option (List Char) :=
  match findSubIdx ralphMarker cs with
  | none => none
  | some i => statusCapture (cs.drop (i + 13))

/-- Generic occurrence loop for the per-field regexes: try each occurrence
    of the literal key from the left; at each, run the deterministic suffix
    matcher; the first success wins (regex leftmost-match semantics). -/
def findKeyMatch {α : Type} (key : List Char) (test : List Char → Option α) :
    List Char → Option α
  | [] => none
  | c :: rest =>
    if key.isPrefixOf (c :: rest) then
      match test ((c :: rest).drop key.length) with
      | some r => some r
      | none => findKeyMatch key test rest
    else findKeyMatch key test rest

/-- Suffix matcher for KEY: backslash-s* quote one-or-more-non-quote quote.
    The greedy whitespace run cannot backtrack usefully (a quote is not
    whitespace), so this is deterministic. -/
def quotedAfterWs (cs : List Char) : Option (List Char) :=
  match cs.dropWhile jsWs with
  | '"' :: rest =>
    let content := rest.takeWhile (fun c => c ≠ '"')
    if content.isEmpty then none
    else if rest.length = content.length then none
    else some content
  | _ => none

/-- Suffix matcher for FILES_CREATED: backslash-s* bracket, lazy capture up
    to the first closing bracket. -/
def bracketAfterWs (cs : List Char) : Option (List Char) :=
  match cs.dropWhile jsWs with
  | '[' :: rest =>
    let content := rest.takeWhile (fun c => c ≠ ']')
    if rest.length = content.length then none else some content
  | _ => none

/-- Suffix matcher for EXIT_SIGNAL: backslash-s* (true|false). -/
def boolAfterWs (cs : List Char) : Option Bool :=
  let t := cs.dropWhile jsWs
  if "true".data.isPrefixOf t then some true
  else if "false".data.isPrefixOf t then some false
  else none

structure RalphStatus where
  taskCompleted : String
  filesCreated : List String
  nextTask : String
  exitSignal : Bool
  notes : String
deriving DecidableEq, Repr

/-- The all-defaults status record (the source's initial result object). -/
def defaultRalphStatus : RalphStatus :=
  { taskCompleted := "", filesCreated := [], nextTask := "",
    exitSignal := false, notes := "" }

/-- FILES_CREATED content handling: split on commas, trim, strip all
    double quotes, drop empties (filter(Boolean)). -/
def splitFiles (content : List Char) : List String :=
  ((splitOnChar ',' content).map
    (fun f => String.mk ((jsTrim f).filter (fun c => c ≠ '"')))).filter
    (fun s => s ≠ "")

/-- Field extraction from a captured status block; every field that does
    not match keeps its default. -/
def extractFields (block : List Char) : RalphStatus :=
  { taskCompleted :=
      match findKeyMatch "TASK_COMPLETED:".data quotedAfterWs block with
      | some v => String.mk v
      | none => ""
    filesCreated :=
      match findKeyMatch "FILES_CREATED:".data bracketAfterWs block with
      | some content => splitFiles content
      | none => []
    nextTask :=
      match findKeyMatch "NEXT_TASK:".data quotedAfterWs block with
      | some v => String.mk v
      | none => ""
    exitSignal :=
      match findKeyMatch "EXIT_SIGNAL:".data boolAfterWs block with
      | some b => b
      | none => false
    notes :=
      match findKeyMatch "NOTES:".data quotedAfterWs block with
      | some v => String.mk v
      | none => "" }

/-- Model of parseRalphStatus (process-manager module, lines 31-65). -/
def parseRalphStatus (text : String) : Option RalphStatus :=
  (capturedBlock text.data).map extractFields

/-- A text has a marker whose following region contains a terminator
    (precisely when the source regex matches). -/
def markerTerminated (cs : List Char) : Bool :=
  match findSubIdx ralphMarker cs with
  | none => false
  | some i => (findTermIdx (cs.drop (i + 13))).isSome

/-! ## JSON values (the result of the JSON.parse builtin) -/

inductive JVal where
  | jnull
  | jbool (b : Bool)
  | jnum (n : Int)
  | jstr (s : String)
  | jarr (elems : List JVal)
  | jobj (fields : List (String × JVal))

/-- The opening curly brace character. -/
def obrace : Char := Char.ofNat 123

/-- The closing curly brace character. -/
def cbrace : Char := Char.ofNat 125

/-- JS property read (undefined = none; non-objects have no own props). -/
def getField : JVal → String → Option JVal
  | .jobj fs, k => (fs.find? (fun p => p.1 == k)).map (·.2)
  | _, _ => none

/-- Optional chaining a?.b?.c style double field access. -/
def getField2 (v : JVal) (k1 k2 : String) : Option JVal :=
  (getField v k1).bind (fun w => getField w k2)

/-- JS truthiness of a JSON value (NaN never arises from JSON.parse). -/
def jtruthy : JVal → Bool
  | .jnull => false
  | .jbool b => b
  | .jnum n => n ≠ 0
  | .jstr s => s ≠ ""
  | .jarr _ => true
  | .jobj _ => true

/-- Truthiness of a possibly-undefined value. -/
def truthyO : Option JVal → Bool
  | some v => jtruthy v
  | none => false

/-- Strict-equality comparison of a field against a string literal. -/
def isStrField : Option JVal → String → Bool
  | some (.jstr t), s => t = s
  | _, _ => false

/-- The JS String(...) conversion. -/
def jsString : JVal → String
  | .jnull => "null"
  | .jbool true => "true"
  | .jbool false => "false"
  | .jnum n => toString n
  | .jstr s => s
  | .jarr xs => String.intercalate "," (xs.attach.map (fun x => jsString x.1))
  | .jobj _ => "[object Object]"
decreasing_by
  have h := List.sizeOf_lt_of_mem x.2
  simp only [JVal.jarr.sizeOf_spec]
  omega

/-- String(...) on a possibly-undefined value. -/
def jsStringU : Option JVal → String
  | some v => jsString v
  | none => "undefined"

/-- The source idiom String(x || ...) with an empty-string fallback. -/
def jsStringFalsy (o : Option JVal) : String :=
  match o with
  | some x => if jtruthy x then jsString x else ""
  | none => ""

/-- The JS idiom a || b on a possibly-undefined a. -/
def truthyOr (a : Option JVal) (b : JVal) : JVal :=
  match a with
  | some v => if jtruthy v then v else b
  | none => b

/-- The source idiom String(x || defaultString). -/
def truthyStr (o : Option JVal) (d : String) : String :=
  match o with
  | some x => if jtruthy x then jsString x else d
  | none => d

/-! ## Review result objects (reviewParser.ts)

A plain record of the JS object's fields; a none field is an absent
property.  Date.now() timestamps and reviewDurationMs are wall-clock
values and are left out of the model. -/

structure ReviewResultM where
  reviewStatus : Option JVal
  overallScore : Option JVal
  requirements : Option JVal
  missingItems : Option JVal
  setupInstructions : Option JVal
  testingNotes : Option JVal
  summary : Option JVal
  rawOutput : Option JVal

def reviewEnums : List String :=
  ["COMPLETE", "PARTIAL", "INCOMPLETE", "ERROR", "PENDING"]

def statusEnumOk : Option JVal → Bool
  | some (.jstr s) => reviewEnums.contains s
  | _ => false

def scoreRangeOk : Option JVal → Bool
  | some (.jnum n) => 0 ≤ n && n ≤ 100
  | _ => false

def isArrField : Option JVal → Bool
  | some (.jarr _) => true
  | _ => false

/-- Truthy and of typeof object (arrays included). -/
def objTypeOk : JVal → Bool
  | .jobj _ => true
  | .jarr _ => true
  | _ => false

/-- Model of validateReviewResultWithDetails (valid iff no errors). -/
def validateReviewResultWithDetails (v : JVal) : Bool :=
  objTypeOk v && statusEnumOk (getField v "reviewStatus")
    && scoreRangeOk (getField v "overallScore")
    && isArrField (getField v "requirements")

/-- The TS spread of the validated parsed object plus rawOutput. -/
def spreadResult (parsed : JVal) (output : String) : ReviewResultM :=
  { reviewStatus := getField parsed "reviewStatus"
    overallScore := getField parsed "overallScore"
    requirements := getField parsed "requirements"
    missingItems := getField parsed "missingItems"
    setupInstructions := getField parsed "setupInstructions"
    testingNotes := getField parsed "testingNotes"
    summary := getField parsed "summary"
    rawOutput := some (.jstr output) }

/-- fixReviewResult status repair. -/
def fixStatusStr (raw : String) : String :=
  let status := raw.toUpper
  if reviewEnums.contains status then status
  else if containsSub status "COMPLETE" then "COMPLETE"
  else if containsSub status "PARTIAL" then "PARTIAL"
  else "INCOMPLETE"

/-- fixReviewResult score repair: clamped for numbers, parseInt (with NO
    clamping) for strings, 0 otherwise. -/
def fixScore : Option JVal → Int
  | some (.jnum n) => max 0 (min 100 n)
  | some (.jstr s) => jsParseIntOr0 s
  | _ => 0

/-- Lenient per-item requirement repair of fixReviewResult. -/
def fixRequirement (idx : Nat) (req : JVal) : JVal :=
  .jobj ([("id", truthyOr (getField req "id")
              (.jstr ("REQ-" ++ toString (idx + 1)))),
          ("description", truthyOr (getField req "description")
              (truthyOr (getField req "name") (.jstr "Unknown requirement"))),
          ("status",
            let s := (jsStringU (getField req "status")).toUpper
            .jstr (if ["COMPLETE", "PARTIAL", "MISSING"].contains s
                   then s else "MISSING"))]
    ++ (match getField req "evidence" with
        | some v => [("evidence", v)]
        | none => [])
    ++ (match getField req "notes" with
        | some v => [("notes", v)]
        | none => []))

/-- Lenient per-item missing-item repair of fixReviewResult. -/
def fixMissingItem (item : JVal) : JVal :=
  .jobj ([("description", truthyOr (getField item "description")
              (.jstr (jsString item))),
          ("priority",
            let p := (jsStringU (getField item "priority")).toUpper
            .jstr (if ["HIGH", "MEDIUM", "LOW"].contains p
                   then p else "MEDIUM"))]
    ++ (match getField item "suggestedFix" with
        | some v => [("suggestedFix", v)]
        | none => []))

def isJNull : JVal → Bool
  | .jnull => true
  | _ => false

/-- setupInstructions repair of fixReviewResult. -/
def fixSetup (su : JVal) : JVal :=
  .jobj [("envVars",
            match getField su "envVars" with
            | some (.jarr xs) => .jarr (xs.map (fun x => .jstr (jsString x)))
            | _ => .jarr []),
         ("installCommands",
            match getField su "installCommands" with
            | some (.jarr xs) => .jarr (xs.map (fun x => .jstr (jsString x)))
            | _ => .jarr [.jstr "npm install"]),
         ("buildCommand", .jstr (truthyStr (getField su "buildCommand") "npm run build")),
         ("testCommand", .jstr (truthyStr (getField su "testCommand") "npm test")),
         ("runCommand", .jstr (truthyStr (getField su "runCommand") "npm start"))]

/-- The requirements repair of fixReviewResult: lenient per item, but a
    null entry makes the per-item property access throw. -/
def fixRequirementsE (v : JVal) : Except Unit JVal :=
  match getField v "requirements" with
  | some (.jarr xs) =>
    if xs.any isJNull then .error ()
    else .ok (.jarr (xs.enum.map (fun p => fixRequirement p.1 p.2)))
  | _ => .ok (.jarr [])

/-- The missingItems repair of fixReviewResult. -/
def fixMissingItemsE (v : JVal) : Except Unit JVal :=
  match getField v "missingItems" with
  | some (.jarr xs) =>
    if xs.any isJNull then .error ()
    else .ok (.jarr (xs.map fixMissingItem))
  | _ => .ok (.jarr [])

/-- Model of fixReviewResult.  A JS property access on null throws a
    TypeError (caught by the enclosing tier), hence the Except: the
    argument being null, or a null entry inside requirements/missingItems,
    aborts the repair. -/
def fixReviewResultE (v : JVal) : Except Unit ReviewResultM :=
  if isJNull v then .error ()
  else
    match fixRequirementsE v, fixMissingItemsE v with
    | .ok r, .ok m =>
      .ok { reviewStatus :=
              some (.jstr (fixStatusStr (jsStringFalsy (getField v "reviewStatus"))))
            overallScore := some (.jnum (fixScore (getField v "overallScore")))
            requirements := some r
            missingItems := some m
            setupInstructions :=
              match getField v "setupInstructions" with
              | some su => if jtruthy su && objTypeOk su then some (fixSetup su) else none
              | none => none
            testingNotes := some (.jstr (jsStringFalsy (getField v "testingNotes")))
            summary := some (.jstr (truthyStr (getField v "summary") "Review completed"))
            rawOutput := none }
    | _, _ => .error ()

/-- The default setupInstructions object shared by extractPartialReview
    and normalizeReviewResult. -/
def defaultSetup : JVal :=
  .jobj [("envVars", .jarr []), ("installCommands", .jarr []),
         ("buildCommand", .jstr "npm run build"),
         ("testCommand", .jstr "npm test"),
         ("runCommand", .jstr "npm start")]

/-- The JS idiom field || defaultValue applied per field. -/
def orFalsy (o : Option JVal) (d : JVal) : Option JVal :=
  match o with
  | some v => if jtruthy v then some v else some d
  | none => some d

/-- Model of normalizeReviewResult. -/
def normalizeReviewResult (p : ReviewResultM) : ReviewResultM :=
  { reviewStatus := orFalsy p.reviewStatus (.jstr "ERROR")
    overallScore := orFalsy p.overallScore (.jnum 0)
    requirements := orFalsy p.requirements (.jarr [])
    missingItems := orFalsy p.missingItems (.jarr [])
    setupInstructions := orFalsy p.setupInstructions defaultSetup
    testingNotes := orFalsy p.testingNotes (.jstr "")
    summary := orFalsy p.summary (.jstr "No summary available")
    rawOutput := p.rawOutput }

/-- Model of createErrorReviewResult. -/
def createErrorReviewResult (error : String) (rawOutput : Option String) : ReviewResultM :=
  { reviewStatus := some (.jstr "ERROR")
    overallScore := some (.jnum 0)
    requirements := some (.jarr [])
    missingItems := some (.jarr [])
    setupInstructions :=
      some (.jobj [("envVars", .jarr []), ("installCommands", .jarr []),
                   ("buildCommand", .jstr ""), ("testCommand", .jstr ""),
                   ("runCommand", .jstr "")])
    testingNotes := some (.jstr "")
    summary := some (.jstr ("Review failed: " ++ error))
    rawOutput := rawOutput.map .jstr }

/-- Observation helper: the status string of a result. -/
def statusOf (r : ReviewResultM) : Option String :=
  match r.reviewStatus with
  | some (.jstr s) => some s
  | _ => none

/-- Observation helper: the numeric score of a result. -/
def scoreOf (r : ReviewResultM) : Option Int :=
  match r.overallScore with
  | some (.jnum n) => some n
  | _ => none

/-! ## parseReviewOutput and its tiers -/

/-- Per-line contribution of extractTextFromStreamJson: pushed text parts
    of the two handled stream-json events, or the trimmed line itself when
    it is not JSON and does not open a brace. -/
def streamLineParts (jp : String → Option JVal) (line : String) : List String :=
  let t := jsTrimStr line
  if t = "" then []
  else
    match jp t with
    | some ev =>
      (if isStrField (getField ev "type") "content_block_delta"
          && truthyO (getField2 ev "delta" "text")
       then [jsStringU (getField2 ev "delta" "text")] else [])
      ++
      (if isStrField (getField ev "type") "content_block_start"
          && truthyO (getField2 ev "content_block" "text")
       then [jsStringU (getField2 ev "content_block" "text")] else [])
    | none =>
      match t.data with
      | c :: _ => if c = obrace then [] else [t]
      | [] => [t]

/-- Model of extractTextFromStreamJson. -/
def extractTextFromStreamJson (jp : String → Option JVal) (output : String) : String :=
  String.join (((splitLines output).map (streamLineParts jp)).flatten)

/-- The fenced-code-block tier regex: the literal backquote fence with
    json tag, greedy whitespace, lazy capture up to the next fence. -/
def extractCodeBlock (cs : List Char) : Option (List Char) :=
  match findSubIdx "```json".data cs with
  | none => none
  | some i =>
    let tail := cs.drop (i + 7)
    let w := (tail.takeWhile jsWs).length
    match findSubIdx "```".data (tail.drop w) with
    | some t => some ((tail.drop w).take t)
    | none => none

/-- Shared tail of the two JSON tiers: validate, else repair field by
    field; a repair throw (null inputs) falls through to the next tier. -/
def tierResult (parsed : JVal) (output : String) : Option ReviewResultM :=
  if validateReviewResultWithDetails parsed then some (spreadResult parsed output)
  else
    match fixReviewResultE parsed with
    | .ok fixed => some (normalizeReviewResult { fixed with rawOutput := some (.jstr output) })
    | .error _ => none

def tierCodeBlock (jp : String → Option JVal) (textContent output : String) :
    Option ReviewResultM :=
  match extractCodeBlock textContent.data with
  | none => none
  | some inner =>
    match jp (String.mk (jsTrim inner)) with
    | none => none
    | some parsed => tierResult parsed output

/-- The quoted reviewStatus key of the raw-JSON regex. -/
def rsKey : List Char := "\"reviewStatus\"".data

/-- The source regex lookahead after the closing brace fails only when the
    next character is another closing brace. -/
def findCloseIdx : List Char → Option Nat
  | [] => none
  | c :: rest =>
    if c = cbrace && (match rest with
                      | c2 :: _ => c2 ≠ cbrace
                      | [] => true)
    then some 0
    else (findCloseIdx rest).map (· + 1)

/-- Leftmost match of the raw-JSON regex: an opening brace, lazily to the
    quoted reviewStatus key, lazily to an acceptable closing brace. -/
def rawJsonScan : List Char → Option (List Char)
  | [] => none
  | c :: rest =>
    if c = obrace then
      match findSubIdx rsKey rest with
      | some r =>
        match findCloseIdx (rest.drop (r + 14)) with
        | some t => some (c :: rest.take (r + 14 + t + 1))
        | none => rawJsonScan rest
      | none => rawJsonScan rest
    else rawJsonScan rest

/-- The brace-depth scan the source runs from the match position; an
    unbalanced region yields the empty substring (whose parse then throws). -/
def braceScanLen : List Char → Int → Nat → Option Nat
  | [], _, _ => none
  | c :: rest, depth, idx =>
    let d1 := if c = obrace then depth + 1 else depth
    let d2 := if c = cbrace then d1 - 1 else d1
    if c = cbrace && d2 = 0 then some (idx + 1)
    else braceScanLen rest d2 (idx + 1)

def braceScan (cs : List Char) : List Char :=
  match braceScanLen cs 0 0 with
  | some n => cs.take n
  | none => []

def tierRawJson (jp : String → Option JVal) (textContent output : String) :
    Option ReviewResultM :=
  match rawJsonScan textContent.data with
  | none => none
  | some matched =>
    let startIdx := (findSubIdx matched textContent.data).getD 0
    let jsonStr := String.mk (braceScan (textContent.data.drop startIdx))
    match jp jsonStr with
    | none => none
    | some parsed => tierResult parsed output

/-- Optional quote, whitespace, colon-or-equals, whitespace, optional
    quote; deterministic for the keys and value shapes involved. -/
def sepThen (cs : List Char) : Option (List Char) :=
  let cs1 := match cs with
    | c :: r => if c = '"' || c = squote then r else cs
    | [] => cs
  match cs1.dropWhile jsWs with
  | c :: r =>
    if c = ':' || c = '=' then
      let r2 := r.dropWhile jsWs
      some (match r2 with
            | c2 :: r3 => if c2 = '"' || c2 = squote then r3 else r2
            | [] => r2)
    else none
  | [] => none

/-- As sepThen, but the value quote is required and the quoted run of
    non-quote characters is captured (the summary field regex). -/
def sepThenQuoted (cs : List Char) : Option (List Char) :=
  let cs1 := match cs with
    | c :: r => if c = '"' || c = squote then r else cs
    | [] => cs
  match cs1.dropWhile jsWs with
  | c :: r =>
    if c = ':' || c = '=' then
      match r.dropWhile jsWs with
      | c2 :: r3 =>
        if c2 = '"' || c2 = squote then
          let content := r3.takeWhile (fun x => x ≠ '"' && x ≠ squote)
          if content.isEmpty then none
          else if r3.length = content.length then none
          else some content
        else none
      | [] => none
    else none
  | [] => none

/-- The case-insensitive status alternation, already upper-cased as the
    source does afterwards. -/
def statusKeywordAfter (cs : List Char) : Option String :=
  match sepThen cs with
  | none => none
  | some t =>
    if "complete".data.isPrefixOf t then some "COMPLETE"
    else if "partial".data.isPrefixOf t then some "PARTIAL"
    else if "incomplete".data.isPrefixOf t then some "INCOMPLETE"
    else none

/-- One-or-more digits, as parseInt reads them. -/
def scoreAfter (cs : List Char) : Option Int :=
  match sepThen cs with
  | none => none
  | some t =>
    let ds := t.takeWhile Char.isDigit
    if ds.isEmpty then none
    else some ((ds.foldl (fun acc c => acc * 10 + (c.toNat - 48)) 0 : Nat) : Int)

/-- Model of extractPartialReview: best-effort field extraction; the
    extracted score is used UNCLAMPED. -/
def extractPartialReview (output : String) : Option ReviewResultM :=
  let lower := output.data.map Char.toLower
  let statusM := findKeyMatch "reviewstatus".data statusKeywordAfter lower
  let scoreM := findKeyMatch "overallScore".data scoreAfter output.data
  let summaryM := findKeyMatch "summary".data sepThenQuoted output.data
  if statusM.isSome || scoreM.isSome then
    some { reviewStatus := some (.jstr (statusM.getD "ERROR"))
           overallScore := some (.jnum (scoreM.getD 0))
           requirements := some (.jarr [])
           missingItems := some (.jarr [])
           setupInstructions := some defaultSetup
           testingNotes := some (.jstr "")
           summary := some (.jstr (match summaryM with
             | some c => String.mk c
             | none => "Review output could not be fully parsed. See raw output for details."))
           rawOutput := none }
  else none

/-- Model of parseReviewOutput (reviewParser.ts lines 45-145): the three
    tiers in order; total, so no exception ever reaches the caller. -/
def parseReviewOutput (jp : String → Option JVal) (output : String) :
    Option ReviewResultM :=
  let textContent :=
    if containsSub output "\"type\":\"content_block_delta\""
       || containsSub output "\"type\":\"message_start\"" then
      extractTextFromStreamJson jp output
    else output
  match tierCodeBlock jp textContent output with
  | some r => some r
  | none =>
    match tierRawJson jp textContent output with
    | some r => some r
    | none =>
      match extractPartialReview textContent with
      | some p => some (normalizeReviewResult { p with rawOutput := some (.jstr output) })
      | none => none

/-! ## runAutoReview: the review subprocess close handler -/

def showExitCode : Option Int → String
  | some n => toString n
  | none => "null"

/-- The close-handler promise: resolve with stdout plus stderr when the
    exit code is 0 OR any stdout was produced; reject otherwise. -/
def reviewCloseOutput (code : Option Int) (stdout stderr : String) :
    Except String String :=
  if code = some 0 || stdout.length > 0 then Except.ok (stdout ++ stderr)
  else Except.error ("Review process exited with code " ++ showExitCode code
                     ++ ": " ++ stderr)

/-- The result runAutoReview produces from the subprocess outcome: parse
    resolved output (an unparseable output becomes an explicit error
    result), and turn a rejection into an error result in the catch. -/
def reviewRunOutcome (jp : String → Option JVal) (code : Option Int)
    (stdout stderr : String) : ReviewResultM :=
  match reviewCloseOutput code stdout stderr with
  | Except.ok out =>
    match parseReviewOutput jp out with
    | some r => r
    | none => createErrorReviewResult "Failed to parse review output" (some out)
  | Except.error msg => createErrorReviewResult msg (some "")

/-! ## checkPlanExhausted

The source tests the content with the multiline pattern: at a line start,
a dash, whitespace, an opening bracket, whitespace, a closing bracket.
The whitespace class includes newlines, so a match may continue past the
end of the line it starts on. -/

/-- Consume one expected character. -/
def expectChar (c : Char) : List Char → Option (List Char)
  | x :: rest => if x = c then some rest else none
  | [] => none

/-- The unchecked-checklist marker pattern applied at one position: a
    dash, whitespace, an opening bracket, whitespace, a closing bracket. -/
def uncheckedAt (cs : List Char) : Bool :=
  (((expectChar '-' cs).bind
      (fun r1 => expectChar '[' (r1.dropWhile jsWs))).bind
    (fun r2 => expectChar ']' (r2.dropWhile jsWs))).isSome

/-- The suffixes at which a multiline caret anchors after the start:
    everything following each newline. -/
def lineStartsAfter : List Char → List (List Char)
  | [] => []
  | c :: rest =>
    if c = '\n' then rest :: lineStartsAfter rest
    else lineStartsAfter rest

/-- regex.test of the multiline unchecked-task pattern. -/
def hasRemainingTasks (content : String) : Bool :=
  uncheckedAt content.data || (lineStartsAfter content.data).any uncheckedAt

/-- The lines of a document, as split('\n') produces them (used to state
    the per-line reading of plan exhaustion). -/
def linesOf (cs : List Char) : List (List Char) :=
  splitOnChar '\n' cs

/-- Model of ProcessManager.checkPlanExhausted: none models a missing or
    unreadable tracking document (the read threw). -/
def checkPlanExhausted (planDoc : Option String) : Bool :=
  match planDoc with
  | none => false
  | some content => !hasRemainingTasks content

/-! ## Session registry state

Each Map of the ProcessManager is an association list keyed by session id
(insertion preserves the position of an existing key, as a JS Map does).
The ChildProcess handle is opaque and carried as a Nat tag.  The
latestE2EResults map and the E2E runner are outside every claim and are
not modelled. -/

abbrev SMap (α : Type) : Type := List (String × α)

def SMap.get? {α : Type} (m : SMap α) (k : String) : Option α :=
  (List.find? (fun p => p.1 == k) m).map (·.2)

def SMap.has {α : Type} (m : SMap α) (k : String) : Bool :=
  (SMap.get? m k).isSome

def SMap.set {α : Type} (m : SMap α) (k : String) (v : α) : SMap α :=
  if List.any m (fun p => p.1 == k) then
    List.map (fun p => if p.1 == k then (k, v) else p) m
  else m ++ [(k, v)]

def SMap.del {α : Type} (m : SMap α) (k : String) : SMap α :=
  List.filter (fun p => p.1 != k) m

/-- Model of the LoopConfig interface. -/
structure LoopConfig where
  projectPath : String
  promptFile : String
  mode : String
  model : String
  sessionId : String
  claudeCliPath : Option String
  maxIterations : Nat
  autoPush : Bool
  verbose : Bool
  autoReview : Bool
  autoContinueEnabled : Bool
  maxAutoIterations : Nat
  currentAutoIteration : Nat
deriving DecidableEq, Repr

/-- The per-session maps of the ProcessManager. -/
structure PMState where
  processes : SMap Nat
  outputBuffers : SMap String
  sessionConfigs : SMap LoopConfig
  iterationCounts : SMap Nat
  claudeSessionIds : SMap String
  shouldContinueLoop : SMap Bool
  exitSignalReceived : SMap Bool
  currentBranches : SMap String
  reviewInProgress : SMap Bool
  latestReviewResults : SMap ReviewResultM
  e2eInProgress : SMap Bool

/-- Model of ProcessManager.cleanupSession: every per-session entry is
    deleted EXCEPT latestReviewResults (the source comment keeps it for UI
    access). -/
def cleanupSession (s : PMState) (sid : String) : PMState :=
  { s with
    processes := SMap.del s.processes sid
    outputBuffers := SMap.del s.outputBuffers sid
    sessionConfigs := SMap.del s.sessionConfigs sid
    iterationCounts := SMap.del s.iterationCounts sid
    claudeSessionIds := SMap.del s.claudeSessionIds sid
    shouldContinueLoop := SMap.del s.shouldContinueLoop sid
    exitSignalReceived := SMap.del s.exitSignalReceived sid
    currentBranches := SMap.del s.currentBranches sid
    reviewInProgress := SMap.del s.reviewInProgress sid
    e2eInProgress := SMap.del s.e2eInProgress sid }

/-- Caching of a finished review run (runAutoReview lines 601 and 607). -/
def storeReviewResult (s : PMState) (sid : String) (r : ReviewResultM) : PMState :=
  { s with latestReviewResults := SMap.set s.latestReviewResults sid r }

/-- Model of ProcessManager.stopLoop: set the non-restart flag first; with
    no attached process, clean up and report false; otherwise signal the
    process (termination itself is asynchronous and the process entry is
    removed later, by the close handler).  Total: never throws. -/
def stopLoop (s : PMState) (sid : String) : PMState × Bool :=
  let s1 := { s with shouldContinueLoop := SMap.set s.shouldContinueLoop sid false }
  match SMap.get? s1.processes sid with
  | none => (cleanupSession s1 sid, false)
  | some _ => (s1, true)

/-- Model of the synchronous prefix of ProcessManager.startLoop, up to and
    including the spawn and the state writes that accompany it.
    fsExists models existsSync; gitBranch the trimmed branch-query output
    (none = the git call threw).  Throwing is the error branch, which
    happens BEFORE any state write and before any spawn. -/
def startLoop (s : PMState) (cfg : LoopConfig) (fsExists : String → Bool)
    (gitBranch : Option String) (handle : Nat) : Except String PMState :=
  if SMap.has s.processes cfg.sessionId then
    Except.error ("Session " ++ cfg.sessionId ++ " is already running")
  else
    let promptPath := cfg.projectPath ++ "/" ++ cfg.promptFile
    if !fsExists promptPath then
      Except.error ("Prompt file not found: " ++ promptPath)
    else
      let s1 :=
        match gitBranch with
        | some b =>
          { s with currentBranches :=
              SMap.set s.currentBranches cfg.sessionId (if b = "" then "HEAD" else b) }
        | none => s
      Except.ok
        { s1 with
          processes := SMap.set s1.processes cfg.sessionId handle
          outputBuffers := SMap.set s1.outputBuffers cfg.sessionId ""
          sessionConfigs := SMap.set s1.sessionConfigs cfg.sessionId cfg
          iterationCounts := SMap.set s1.iterationCounts cfg.sessionId
            ((SMap.get? s1.iterationCounts cfg.sessionId).getD 0)
          shouldContinueLoop := SMap.set s1.shouldContinueLoop cfg.sessionId true
          exitSignalReceived := SMap.set s1.exitSignalReceived cfg.sessionId false }

/-! ## The stdout handler and handleRalphStatus -/

inductive EventM where
  | stdoutParsed (v : JVal)
  | stdoutRaw (line : String)
  | ralphStatus (st : RalphStatus)
  | systemMsg (msg : String)

/-- Events of handleRalphStatus, and whether it sets the exit-signal flag. -/
def handleRalphStatus (st : RalphStatus) : List EventM × Bool :=
  (EventM.ralphStatus st ::
    (if st.exitSignal then
      [EventM.systemMsg "Exit signal received - loop will stop after this iteration completes."]
     else []),
   st.exitSignal)

/-- Scan a text for a status block and run handleRalphStatus on a hit. -/
def statusScan (text : String) : List EventM × Bool :=
  match parseRalphStatus text with
  | some st => handleRalphStatus st
  | none => ([], false)

structure LineEffect where
  events : List EventM
  exitSignal : Bool
  claudeSid : Option JVal

/-- Model of the per-line body of the stdout data handler: try the line as
    JSON; on success emit the parsed event, capture the agent session id
    from an init message, and scan any delta text for a status block; a
    JSON failure (or a mid-try TypeError from a truthy non-string delta
    text) lands in the catch, which emits the raw line and scans it. -/
def processLine (jp : String → Option JVal) (line : String) : LineEffect :=
  match jp line with
  | none =>
    let (evs, ex) := statusScan line
    { events := EventM.stdoutRaw line :: evs, exitSignal := ex, claudeSid := none }
  | some parsed =>
    let sidCap :=
      if isStrField (getField parsed "type") "system"
         && isStrField (getField parsed "subtype") "init"
         && truthyO (getField parsed "session_id")
      then getField parsed "session_id" else none
    match ((getField parsed "event").bind (fun e => getField e "delta")).bind
        (fun d => getField d "text") with
    | some (.jstr t) =>
      if t ≠ "" then
        let (evs, ex) := statusScan t
        { events := EventM.stdoutParsed parsed :: evs, exitSignal := ex,
          claudeSid := sidCap }
      else
        { events := [EventM.stdoutParsed parsed], exitSignal := false,
          claudeSid := sidCap }
    | some v =>
      if jtruthy v then
        let (evs, ex) := statusScan line
        { events := EventM.stdoutParsed parsed :: EventM.stdoutRaw line :: evs,
          exitSignal := ex, claudeSid := sidCap }
      else
        { events := [EventM.stdoutParsed parsed], exitSignal := false,
          claudeSid := sidCap }
    | none =>
      { events := [EventM.stdoutParsed parsed], exitSignal := false,
        claudeSid := sidCap }

/-- The complete lines a chunk yields: buffer plus chunk split on
    newlines, with the trailing partial line retained. -/
def completeLines (buffer chunk : String) : List String :=
  (splitLines (buffer ++ chunk)).dropLast

/-- The retained partial line after a chunk. -/
def remainingBuffer (buffer chunk : String) : String :=
  ((splitLines (buffer ++ chunk)).getLast?).getD ""

/-- All events the stdout handler emits for one chunk; a line whose
    trimmed form is empty is skipped entirely. -/
def chunkEvents (jp : String → Option JVal) (buffer chunk : String) : List EventM :=
  ((completeLines buffer chunk).map
    (fun l => if jsTrimStr l = "" then [] else (processLine jp l).events)).flatten

/-- The exit-signal flag after the chunk's lines are processed. -/
def linesExitFlag (jp : String → Option JVal) (lines : List String) : Bool :=
  lines.foldl
    (fun fl l => fl || (if jsTrimStr l = "" then false else (processLine jp l).exitSignal))
    false

/-! ## The close handler decision (Loop Controller) -/

inductive CloseDecision where
  | restart (nextIteration : Nat)
  | stop (reason : String)
deriving DecidableEq, Repr

/-- Model of the restart-or-stop decision of the close handler (process
    exit).  code none models a null exit code (killed by signal); the
    Option Bool flags model Map.get (none = undefined, falsy). -/
def closeDecision (code : Option Int) (cfg : Option LoopConfig)
    (shouldContinue exitSignal : Option Bool) (currentIteration : Nat)
    (planDocExhausted : Bool) : CloseDecision :=
  let maxReached :=
    match cfg with
    | some c => decide (c.maxIterations ≠ 0) && decide (currentIteration ≥ c.maxIterations)
    | none => false
  let planEx := cfg.isSome && planDocExhausted
  if (code == some 0) && shouldContinue.getD false && !(exitSignal.getD false)
     && !maxReached && !planEx && cfg.isSome then
    CloseDecision.restart (currentIteration + 1)
  else
    CloseDecision.stop
      (if planEx then "All tasks completed in IMPLEMENTATION_PLAN.md"
       else if exitSignal.getD false then "EXIT_SIGNAL received"
       else if maxReached then
         "Max iterations (" ++ toString ((cfg.map LoopConfig.maxIterations).getD 0)
           ++ ") reached"
       else if !(shouldContinue.getD false) then "Loop was stopped"
       else if code != some 0 then "Exit code " ++ showExitCode code
       else "Unknown")

/-- One full iteration of a running session: the stdout lines received
    during it (which may set the exit-signal flag, reset to false when the
    iteration started), then the close handler with the given exit code
    and tracking-document content. -/
def iterationDecision (jp : String → Option JVal) (cfg : LoopConfig)
    (lines : List String) (code : Option Int) (planDoc : Option String)
    (iter : Nat) : CloseDecision :=
  closeDecision code (some cfg) (some true) (some (linesExitFlag jp lines))
    iter (checkPlanExhausted planDoc)

/-- Fuel-indexed simulation of the recursive restart loop: each call is
    one spawn-run-exit cycle in which the process exits with code 0, emits
    no status block, and the tracking document keeps unchecked items;
    returns the number of spawn-run-exit cycles performed and the eventual
    completion reason. -/
def simLoop (cfg : LoopConfig) (planDoc : Option String) :
    Nat → Nat → Nat × Option String
  | 0, _ => (0, none)
  | fuel + 1, iter =>
    match closeDecision (some 0) (some cfg) (some true) (some false) iter
        (checkPlanExhausted planDoc) with
    | CloseDecision.restart n =>
      let r := simLoop cfg planDoc fuel n
      (r.1 + 1, r.2)
    | CloseDecision.stop reason => (1, some reason)

/-! ## Sample inputs used by witnesses and counterexamples -/

/-- A JSON.parse model in which no input parses (sufficient for inputs
    on which the source never reaches JSON.parse). -/
def jpAlwaysFail : String → Option JVal := fun _ => none

/-- A sample session configuration with the iteration cap of 3. -/
def cfgMax3 : LoopConfig :=
  { projectPath := "/proj", promptFile := "PROMPT.md", mode := "build",
    model := "m1", sessionId := "s1", claudeCliPath := none,
    maxIterations := 3, autoPush := false, verbose := false,
    autoReview := false, autoContinueEnabled := false,
    maxAutoIterations := 0, currentAutoIteration := 0 }

/-- A sample cached review result. -/
def sampleReview : ReviewResultM := createErrorReviewResult "sample" none

/-- A sample registry state with one running session s1 and a cached
    review result for it. -/
def sampleState : PMState :=
  { processes := [("s1", 7)], outputBuffers := [("s1", "")],
    sessionConfigs := [("s1", cfgMax3)], iterationCounts := [("s1", 2)],
    claudeSessionIds := [], shouldContinueLoop := [("s1", true)],
    exitSignalReceived := [("s1", false)], currentBranches := [("s1", "main")],
    reviewInProgress := [], latestReviewResults := [("s1", sampleReview)],
    e2eInProgress := [] }

/-! # Helper lemmas -/

theorem smap_find_map_replace {α : Type} (m : SMap α) (k : String) (v : α)
    (h : List.any m (fun p => p.1 == k) = true) :
    List.find? (fun p => p.1 == k)
      (List.map (fun p => if p.1 == k then (k, v) else p) m) = some (k, v) := by
  induction m with
  | nil => simp at h
  | cons p rest ih =>
    cases hp : p.1 == k with
    | true =>
      rw [List.map_cons, if_pos hp]
      simp [List.find?_cons]
    | false =>
      have hp' : ¬ ((p.1 == k) = true) := by simp [hp]
      rw [List.map_cons, if_neg hp']
      simp only [List.find?_cons, hp]
      simp only [List.any_cons, hp, Bool.false_or] at h
      exact ih h

theorem smap_find_append_absent {α : Type} (m : SMap α) (k : String) (v : α)
    (h : List.any m (fun p => p.1 == k) = false) :
    List.find? (fun p => p.1 == k) (m ++ [(k, v)]) = some (k, v) := by
  induction m with
  | nil =>
    simp [List.find?_cons]
  | cons p rest ih =>
    simp only [List.any_cons, Bool.or_eq_false_iff] at h
    rw [List.cons_append]
    simp only [List.find?_cons, h.1]
    exact ih h.2

theorem smap_get_set_self {α : Type} (m : SMap α) (k : String) (v : α) :
    SMap.get? (SMap.set m k v) k = some v := by
  unfold SMap.set SMap.get?
  by_cases h : List.any m (fun p => p.1 == k) = true
  · rw [if_pos h, smap_find_map_replace m k v h]
    rfl
  · have h' := Bool.eq_false_iff.mpr h
    rw [if_neg h, smap_find_append_absent m k v h']
    rfl

theorem smap_get_del_self {α : Type} (m : SMap α) (k : String) :
    SMap.get? (SMap.del m k) k = none := by
  unfold SMap.del SMap.get?
  rw [List.find?_eq_none.mpr]
  · rfl
  · intro p hp
    have h2 := List.of_mem_filter hp
    simp only [bne_iff_ne, ne_eq] at h2
    simp [h2]

theorem smap_del_del_self {α : Type} (m : SMap α) (k : String) :
    SMap.del (SMap.del m k) k = SMap.del m k := by
  unfold SMap.del
  induction m with
  | nil => rfl
  | cons p rest ih =>
    cases hp : p.1 != k with
    | true => simp [List.filter_cons, hp, ih]
    | false => simp [List.filter_cons, hp]

theorem smap_map_replace_of_absent {α : Type} (m : SMap α) (k : String) (v : α)
    (h : List.any m (fun p => p.1 == k) = false) :
    List.map (fun p => if p.1 == k then (k, v) else p) m = m := by
  induction m with
  | nil => rfl
  | cons p rest ih =>
    simp only [List.any_cons, Bool.or_eq_false_iff] at h
    have hp' : ¬ ((p.1 == k) = true) := by simp [h.1]
    rw [List.map_cons, if_neg hp', ih h.2]

theorem smap_any_map_replace {α : Type} (m : SMap α) (k : String) (v : α) :
    List.any (List.map (fun p => if p.1 == k then (k, v) else p) m)
      (fun p => p.1 == k) = List.any m (fun p => p.1 == k) := by
  induction m with
  | nil => rfl
  | cons p rest ih =>
    cases hp : p.1 == k with
    | true =>
      rw [List.map_cons, if_pos hp, List.any_cons, List.any_cons, ih, hp]
      simp
    | false =>
      have hp' : ¬ ((p.1 == k) = true) := by simp [hp]
      rw [List.map_cons, if_neg hp', List.any_cons, List.any_cons, ih]

theorem smap_map_replace_idem {α : Type} (m : SMap α) (k : String) (v : α) :
    List.map (fun p => if p.1 == k then (k, v) else p)
      (List.map (fun p => if p.1 == k then (k, v) else p) m)
      = List.map (fun p => if p.1 == k then (k, v) else p) m := by
  induction m with
  | nil => rfl
  | cons p rest ih =>
    cases hp : p.1 == k with
    | true =>
      rw [List.map_cons, if_pos hp, List.map_cons,
          if_pos (show ((k, v).1 == k) = true by simp), ih]
    | false =>
      have hp' : ¬ ((p.1 == k) = true) := by simp [hp]
      rw [List.map_cons, if_neg hp', List.map_cons, if_neg hp', ih]

theorem smap_filter_map_replace {α : Type} (m : SMap α) (k : String) (v : α) :
    List.filter (fun p => p.1 != k)
      (List.map (fun p => if p.1 == k then (k, v) else p) m)
      = List.filter (fun p => p.1 != k) m := by
  induction m with
  | nil => rfl
  | cons p rest ih =>
    cases hp : p.1 == k with
    | true =>
      have e1 : (((k, v) : String × α).1 != k) = false := by simp
      have e2 : (p.1 != k) = false := by
        simp only [bne_eq_false_iff_eq]
        exact eq_of_beq hp
      rw [List.map_cons, if_pos hp, List.filter_cons, List.filter_cons, e1, e2]
      simp only [Bool.false_eq_true, if_false]
      exact ih
    | false =>
      have hp' : ¬ ((p.1 == k) = true) := by simp [hp]
      have e2 : (p.1 != k) = true := by simp [bne, hp]
      rw [List.map_cons, if_neg hp', List.filter_cons, List.filter_cons, e2]
      simp only [if_true]
      rw [ih]

theorem smap_del_set_self {α : Type} (m : SMap α) (k : String) (v : α) :
    SMap.del (SMap.set m k v) k = SMap.del m k := by
  unfold SMap.set SMap.del
  by_cases h : List.any m (fun p => p.1 == k) = true
  · simp only [h, if_true]
    exact smap_filter_map_replace m k v
  · have h' := Bool.eq_false_iff.mpr h
    simp only [h', Bool.false_eq_true, if_false]
    rw [List.filter_append]
    simp [bne]

theorem smap_set_set_self {α : Type} (m : SMap α) (k : String) (v : α) :
    SMap.set (SMap.set m k v) k v = SMap.set m k v := by
  unfold SMap.set
  by_cases h : List.any m (fun p => p.1 == k) = true
  · simp only [h, if_true, smap_any_map_replace m k v]
    exact smap_map_replace_idem m k v
  · have h' := Bool.eq_false_iff.mpr h
    have happ : List.any (m ++ [(k, v)]) (fun p => p.1 == k) = true := by
      simp [List.any_append]
    simp only [h', Bool.false_eq_true, if_false, happ, if_true]
    rw [List.map_append, smap_map_replace_of_absent m k v h']
    simp

theorem foldl_or_any {α : Type} (g : α → Bool) (l : List α) (b : Bool) :
    l.foldl (fun fl x => fl || g x) b = (b || l.any g) := by
  induction l generalizing b with
  | nil => simp
  | cons a t ih => simp [List.foldl_cons, ih, List.any_cons, Bool.or_assoc]

theorem linesExitFlag_of_mem (jp : String → Option JVal) (lines : List String)
    (l : String) (hl : l ∈ lines) (ht : jsTrimStr l ≠ "")
    (hx : (processLine jp l).exitSignal = true) :
    linesExitFlag jp lines = true := by
  unfold linesExitFlag
  rw [foldl_or_any, Bool.false_or, List.any_eq_true]
  refine ⟨l, hl, ?_⟩
  rw [if_neg ht]
  exact hx

theorem closeDecision_stop_of_no_continue (code : Option Int)
    (cfg : Option LoopConfig) (sc esig : Option Bool) (iter : Nat)
    (planEx : Bool) (h : sc.getD false = false) :
    ∃ r, closeDecision code cfg sc esig iter planEx = CloseDecision.stop r := by
  unfold closeDecision
  simp only [h, Bool.and_false, Bool.false_and, Bool.and_false,
    Bool.false_eq_true, if_false]
  exact ⟨_, rfl⟩

theorem closeDecision_exit_signal (code : Option Int) (cfg : Option LoopConfig)
    (sc : Option Bool) (iter : Nat) (planEx : Bool) :
    closeDecision code cfg sc (some true) iter planEx =
      CloseDecision.stop
        (if cfg.isSome && planEx then "All tasks completed in IMPLEMENTATION_PLAN.md"
         else "EXIT_SIGNAL received") := by
  unfold closeDecision
  simp

theorem simLoop_congr (cfg : LoopConfig) (d1 d2 : Option String)
    (h : checkPlanExhausted d1 = checkPlanExhausted d2) (fuel iter : Nat) :
    simLoop cfg d1 fuel iter = simLoop cfg d2 fuel iter := by
  induction fuel generalizing iter with
  | zero => rfl
  | succ n ih =>
    simp only [simLoop, h]
    cases closeDecision (some 0) (some cfg) (some true) (some false) iter
        (checkPlanExhausted d2) with
    | restart m => simp [ih]
    | stop r => rfl

/-! # Claim theorems -/

/-- C1 (counterexample): the claim asserts that an exit-signal status
    followed by exit code 0 always emits the completion reason of the exit
    signal; but when the tracking document is simultaneously exhausted
    (here: an empty document with no unchecked items), the close handler
    reports the plan-exhaustion reason instead, so the claim as stated is
    false.  The session did receive an exit-signal status and did stop. -/
theorem exit_signal_reason_counterexample :
    (processLine jpAlwaysFail "RALPH_STATUS: EXIT_SIGNAL: true zz").exitSignal = true
    ∧ iterationDecision jpAlwaysFail cfgMax3 ["RALPH_STATUS: EXIT_SIGNAL: true zz"]
        (some 0) (some "") 0
        = CloseDecision.stop "All tasks completed in IMPLEMENTATION_PLAN.md"
    ∧ iterationDecision jpAlwaysFail cfgMax3 ["RALPH_STATUS: EXIT_SIGNAL: true zz"]
        (some 0) (some "") 0
        ≠ CloseDecision.stop "EXIT_SIGNAL received" := by
  refine ⟨by decide, by decide, by decide⟩

/-- C1 (amended): a status block with exit-signal true received during the
    iteration, followed by exit code 0, always yields a stop decision
    (never a restart); the emitted completion reason is the exit-signal
    reason whenever the plan-exhaustion check is false (plan exhaustion
    takes precedence in the reason text). -/
theorem exit_signal_yields_stop (jp : String → Option JVal) (cfg : LoopConfig)
    (lines : List String) (planDoc : Option String) (iter : Nat)
    (h : ∃ l, l ∈ lines ∧ jsTrimStr l ≠ "" ∧ (processLine jp l).exitSignal = true) :
    (∃ r, iterationDecision jp cfg lines (some 0) planDoc iter = CloseDecision.stop r)
    ∧ (checkPlanExhausted planDoc = false →
        iterationDecision jp cfg lines (some 0) planDoc iter
          = CloseDecision.stop "EXIT_SIGNAL received") := by
  obtain ⟨l, hl, ht, hx⟩ := h
  have hflag := linesExitFlag_of_mem jp lines l hl ht hx
  unfold iterationDecision
  rw [hflag]
  constructor
  · rw [closeDecision_exit_signal]
    exact ⟨_, rfl⟩
  · intro hpd
    rw [closeDecision_exit_signal]
    simp [hpd]

/-- C1 (witness): the amended theorem applied at a concrete line carrying
    EXIT_SIGNAL true and a tracking document that still has an unchecked
    item. -/
theorem exit_signal_yields_stop_witness :
    iterationDecision jpAlwaysFail cfgMax3 ["RALPH_STATUS: EXIT_SIGNAL: true z"]
      (some 0) (some "- [ ] task") 0 = CloseDecision.stop "EXIT_SIGNAL received" :=
  (exit_signal_yields_stop jpAlwaysFail cfgMax3
    ["RALPH_STATUS: EXIT_SIGNAL: true z"] (some "- [ ] task") 0
    ⟨"RALPH_STATUS: EXIT_SIGNAL: true z", by decide, by decide, by decide⟩).2
    (by decide)

/-- C2: startLoop on a session id that already has an active process
    throws the explicit already-running error; in the Except model the
    error branch is taken before any state write and before the spawn, so
    no second ProcessHandle is ever created for the session id. -/
theorem double_start_rejected (s : PMState) (cfg : LoopConfig)
    (fsExists : String → Bool) (gitBranch : Option String) (handle : Nat)
    (h : SMap.has s.processes cfg.sessionId = true) :
    startLoop s cfg fsExists gitBranch handle
      = Except.error ("Session " ++ cfg.sessionId ++ " is already running") := by
  unfold startLoop
  rw [if_pos h]

/-- C2 (witness): the rejection at a concrete state whose session s1 is
    running. -/
theorem double_start_rejected_witness :
    startLoop sampleState cfgMax3 (fun _ => true) (some "main") 9
      = Except.error "Session s1 is already running" :=
  double_start_rejected sampleState cfgMax3 (fun _ => true) (some "main") 9
    (by decide)

/-- C3 (counterexample): with max-iterations = 3 and a tracking document
    that keeps an unchecked item, the controller performs 4 spawn-run-exit
    cycles (the initial run plus the 3 counted restarts), not 3 as the
    claim states; the completion reason is the max-iterations reason. -/
theorem max_iterations_count_counterexample :
    (simLoop cfgMax3 (some "- [ ] item") 10 0).1 = 4
    ∧ (simLoop cfgMax3 (some "- [ ] item") 10 0).1 ≠ 3
    ∧ (simLoop cfgMax3 (some "- [ ] item") 10 0).2
        = some "Max iterations (3) reached" := by
  refine ⟨by decide, by decide, by decide⟩

/-- C3 (amended): with max-iterations = 3, a process that always exits
    with code 0 and no exit signal, and any tracking document that is not
    exhausted, the controller performs exactly 4 spawn-run-exit cycles —
    the initial run plus 3 counted restart iterations (the iteration
    counter reaches 3) — and then stops with the reason naming max
    iterations, regardless of remaining unchecked tracking items. -/
theorem max_iterations_cap (planDoc : Option String)
    (h : checkPlanExhausted planDoc = false) :
    simLoop cfgMax3 planDoc 10 0 = (4, some "Max iterations (3) reached") := by
  rw [simLoop_congr cfgMax3 planDoc (some "- [ ] item")
      (by rw [h]; decide) 10 0]
  decide

/-- C3 (witness): the amended theorem applied to a document with one
    unchecked item. -/
theorem max_iterations_cap_witness :
    simLoop cfgMax3 (some "- [ ] a") 10 0 = (4, some "Max iterations (3) reached") :=
  max_iterations_cap (some "- [ ] a") (by decide)

/-- C7: stopLoop is idempotent (a second stop returns the same state and
    answer), never throws (it is total), sets the non-restart flag before
    any termination attempt (in both branches the resulting flag is never
    true), and afterwards the close handler can only stop, never restart,
    for that session. -/
theorem stop_idempotent_nonrestartable (s : PMState) (sid : String) :
    stopLoop ((stopLoop s sid).1) sid = stopLoop s sid
    ∧ (SMap.get? ((stopLoop s sid).1).shouldContinueLoop sid).getD false = false
    ∧ ∀ (code : Option Int) (cfg : Option LoopConfig) (esig : Option Bool)
        (iter : Nat) (planEx : Bool),
        ∃ r, closeDecision code cfg
            (SMap.get? ((stopLoop s sid).1).shouldContinueLoop sid)
            esig iter planEx = CloseDecision.stop r := by
  have hflag : (SMap.get? ((stopLoop s sid).1).shouldContinueLoop sid).getD false = false := by
    unfold stopLoop
    cases h : SMap.get? s.processes sid with
    | none => simp [h, cleanupSession, smap_get_del_self]
    | some p => simp [h, smap_get_set_self]
  refine ⟨?_, hflag, fun code cfg esig iter planEx =>
    closeDecision_stop_of_no_continue code cfg _ esig iter planEx hflag⟩
  unfold stopLoop
  cases h : SMap.get? s.processes sid with
  | none =>
    simp only [h, cleanupSession, smap_get_del_self]
    simp [smap_del_del_self, smap_del_set_self]
  | some p =>
    simp only [h]
    simp [h, smap_set_set_self]

/-- C9 (counterexample): the claim asserts the cached ReviewResult is gone
    after session cleanup; but cleanupSession deliberately keeps
    latestReviewResults (the source comment retains it for UI access), so
    the cached result is still present afterwards. -/
theorem review_cache_cleanup_counterexample :
    SMap.get? (cleanupSession sampleState "s1").latestReviewResults "s1"
      = some sampleReview := rfl

/-- C9 (amended): a session's cached ReviewResult is present from the end
    of a review run (storeReviewResult) until overwritten by a later run;
    session cleanup does NOT remove it — it removes the live per-session
    state (e.g. the process entry) while leaving the review cache
    untouched. -/
theorem review_cache_lifetime (s : PMState) (sid : String) (r : ReviewResultM) :
    SMap.get? (storeReviewResult s sid r).latestReviewResults sid = some r
    ∧ (cleanupSession s sid).latestReviewResults = s.latestReviewResults
    ∧ SMap.get? (cleanupSession s sid).processes sid = none := by
  refine ⟨smap_get_set_self s.latestReviewResults sid r, rfl,
    smap_get_del_self s.processes sid⟩

theorem dropWhile_append_cons (p : Char → Bool) (l t : List Char) (c : Char)
    (m : List Char) (h : l.dropWhile p = c :: m) :
    (l ++ t).dropWhile p = c :: (m ++ t) := by
  induction l with
  | nil => simp [List.dropWhile] at h
  | cons a l2 ih =>
    rw [List.cons_append]
    cases hp : p a with
    | true =>
      simp only [List.dropWhile, hp] at h ⊢
      exact ih h
    | false =>
      simp only [List.dropWhile, hp] at h ⊢
      injection h with h1 h2
      subst h1
      subst h2
      rfl

theorem expectChar_append (c : Char) (l t r : List Char)
    (h : expectChar c l = some r) : expectChar c (l ++ t) = some (r ++ t) := by
  cases l with
  | nil => simp [expectChar] at h
  | cons x rest =>
    rw [List.cons_append]
    simp only [expectChar] at h ⊢
    by_cases hx : x = c
    · rw [if_pos hx] at h ⊢
      injection h with h1
      rw [h1]
    · rw [if_neg hx] at h
      cases h

theorem uncheckedAt_append (l t : List Char) (h : uncheckedAt l = true) :
    uncheckedAt (l ++ t) = true := by
  unfold uncheckedAt at h ⊢
  rw [Option.isSome_iff_exists] at h
  obtain ⟨r3, h3⟩ := h
  rw [Option.bind_eq_some] at h3
  obtain ⟨r2, h2, hr3⟩ := h3
  rw [Option.bind_eq_some] at h2
  obtain ⟨r1, h1, hr2⟩ := h2
  -- h1 : expectChar dash l = some r1, whose dropWhile then yields a bracket
  have h1' : expectChar '-' (l ++ t) = some (r1 ++ t) := expectChar_append _ _ _ _ h1
  -- the bracket head survives an append on the right
  cases hd1 : r1.dropWhile jsWs with
  | nil => rw [hd1] at hr2; simp [expectChar] at hr2
  | cons d rest2 =>
    rw [hd1] at hr2
    have hdw1 := dropWhile_append_cons jsWs r1 t d rest2 hd1
    simp only [expectChar] at hr2
    by_cases hdb : d = '['
    · rw [if_pos hdb] at hr2
      injection hr2 with hr2e
      subst hr2e
      cases hd2 : rest2.dropWhile jsWs with
      | nil => rw [hd2] at hr3; simp [expectChar] at hr3
      | cons e rest3 =>
        rw [hd2] at hr3
        have hdw2 := dropWhile_append_cons jsWs rest2 t e rest3 hd2
        simp only [expectChar] at hr3
        by_cases heb : e = ']'
        · rw [Option.isSome_iff_exists]
          refine ⟨rest3 ++ t, ?_⟩
          rw [Option.bind_eq_some]
          refine ⟨rest2 ++ t, ?_, ?_⟩
          · rw [Option.bind_eq_some]
            refine ⟨r1 ++ t, h1', ?_⟩
            rw [hdw1]
            simp only [expectChar]
            rw [if_pos hdb]
          · rw [hdw2]
            simp only [expectChar]
            rw [if_pos heb]
        · rw [if_neg heb] at hr3
          cases hr3
    · rw [if_neg hdb] at hr2
      cases hr2

theorem uncheckedAt_mono (l cs : List Char) (hp : l <+: cs)
    (h : uncheckedAt l = true) : uncheckedAt cs = true := by
  obtain ⟨t, ht⟩ := hp
  rw [← ht]
  exact uncheckedAt_append l t h

theorem splitOnChar_ne_nil (sep : Char) (cs : List Char) :
    splitOnChar sep cs ≠ [] := by
  cases cs with
  | nil => simp [splitOnChar]
  | cons c rest =>
    unfold splitOnChar
    by_cases hc : c = sep
    · simp [hc]
    · rw [if_neg hc]
      cases splitOnChar sep rest with
      | nil => simp
      | cons h t => simp

theorem splitOnChar_head_prefix (sep : Char) (cs : List Char)
    (h0 : List Char) (t0 : List (List Char))
    (h : splitOnChar sep cs = h0 :: t0) : h0 <+: cs := by
  induction cs generalizing h0 t0 with
  | nil =>
    unfold splitOnChar at h
    injection h with h1 h2
    subst h1
    exact List.nil_prefix
  | cons c rest ih =>
    unfold splitOnChar at h
    by_cases hc : c = sep
    · rw [if_pos hc] at h
      injection h with h1 h2
      subst h1
      exact List.nil_prefix
    · rw [if_neg hc] at h
      cases hs : splitOnChar sep rest with
      | nil => exact absurd hs (splitOnChar_ne_nil sep rest)
      | cons h1 t1 =>
        rw [hs] at h
        injection h with he1 he2
        subst he1
        obtain ⟨u, hu⟩ := ih h1 t1 hs
        exact ⟨u, by rw [List.cons_append, hu]⟩

theorem mem_tail_splitOnChar (cs : List Char) (l : List Char)
    (h : l ∈ (splitOnChar '\n' cs).tail) :
    ∃ u ∈ lineStartsAfter cs, l <+: u := by
  induction cs with
  | nil =>
    unfold splitOnChar at h
    simp at h
  | cons c rest ih =>
    unfold splitOnChar at h
    by_cases hc : c = '\n'
    · rw [if_pos hc] at h
      simp only [List.tail_cons] at h
      cases hs : splitOnChar '\n' rest with
      | nil => exact absurd hs (splitOnChar_ne_nil '\n' rest)
      | cons h1 t1 =>
        rw [hs] at h
        rcases List.mem_cons.mp h with he | htl
        · subst he
          refine ⟨rest, ?_, splitOnChar_head_prefix '\n' rest l t1 hs⟩
          unfold lineStartsAfter
          rw [if_pos hc]
          exact List.mem_cons_self _ _
        · have := ih (by rw [hs]; exact htl)
          obtain ⟨u, hu, hpre⟩ := this
          refine ⟨u, ?_, hpre⟩
          unfold lineStartsAfter
          rw [if_pos hc]
          exact List.mem_cons_of_mem _ hu
    · rw [if_neg hc] at h
      cases hs : splitOnChar '\n' rest with
      | nil => exact absurd hs (splitOnChar_ne_nil '\n' rest)
      | cons h1 t1 =>
        rw [hs] at h
        simp only [List.tail_cons] at h
        have := ih (by rw [hs]; exact h)
        obtain ⟨u, hu, hpre⟩ := this
        refine ⟨u, ?_, hpre⟩
        unfold lineStartsAfter
        rw [if_neg hc]
        exact hu

theorem per_line_unchecked (c : String) (l : List Char)
    (hl : l ∈ linesOf c.data) (h : uncheckedAt l = true) :
    checkPlanExhausted (some c) = false := by
  have hrem : hasRemainingTasks c = true := by
    unfold hasRemainingTasks
    cases hs : linesOf c.data with
    | nil => exact absurd hs (splitOnChar_ne_nil '\n' c.data)
    | cons h0 t0 =>
      rw [hs] at hl
      rcases List.mem_cons.mp hl with he | htl
      · subst he
        have hpre : l <+: c.data :=
          splitOnChar_head_prefix '\n' c.data l t0 hs
        rw [uncheckedAt_mono l c.data hpre h]
        rfl
      · have hmem : l ∈ (splitOnChar '\n' c.data).tail := by
          unfold linesOf at hs
          rw [hs]
          exact htl
        obtain ⟨u, hu, hpre⟩ := mem_tail_splitOnChar c.data l hmem
        have : (lineStartsAfter c.data).any uncheckedAt = true := by
          rw [List.any_eq_true]
          exact ⟨u, hu, uncheckedAt_mono l u hpre h⟩
        rw [this]
        simp
  show (!hasRemainingTasks c) = false
  rw [hrem]
  rfl

/-- C4 (counterexample): the claim reads plan exhaustion as a per-line
    test.  The source pattern's whitespace class crosses newlines, so a
    marker split across two lines is still found: on the two-line document
    of a dash-bracket line followed by a closing-bracket line, no single
    line matches the marker pattern (the claim then demands exhausted =
    true), yet the code reports not exhausted. -/
theorem plan_exhaustion_iff_counterexample :
    checkPlanExhausted (some "- [\n]") = false
    ∧ (linesOf ("- [\n]").data).all (fun l => !uncheckedAt l) = true := by
  refine ⟨by decide, by decide⟩

/-- C4 (amended): the plan-exhaustion check returns true iff the
    unchecked-marker pattern matches at no line-start position of the
    tracking document (the pattern may span lines through its whitespace
    class); any document with at least one line matching the marker
    pattern yields false; a missing or unreadable file yields false. -/
theorem plan_exhaustion_check :
    checkPlanExhausted none = false
    ∧ (∀ c : String, checkPlanExhausted (some c) = !hasRemainingTasks c)
    ∧ (∀ (c : String) (l : List Char), l ∈ linesOf c.data →
        uncheckedAt l = true → checkPlanExhausted (some c) = false) := by
  exact ⟨rfl, fun c => rfl, per_line_unchecked⟩

/-- C4 (witness): a document consisting of one unchecked item is not
    exhausted. -/
theorem plan_exhaustion_check_witness :
    checkPlanExhausted (some "- [ ] w") = false :=
  plan_exhaustion_check.2.2 "- [ ] w" ("- [ ] w").data (by decide) (by decide)

theorem captureWLoop_isSome (tail : List Char) (w : Nat)
    (h : (findTermIdx tail).isSome = true) :
    (captureWLoop tail w).isSome = true := by
  induction w with
  | zero =>
    unfold captureWLoop
    cases ht : findTermIdx tail with
    | none => rw [ht] at h; simp at h
    | some t => simp
  | succ n ih =>
    unfold captureWLoop
    cases h2 : findTermIdx (tail.drop (n + 1)) with
    | some t => simp
    | none => exact ih

theorem findKeyMatch_none {α : Type} (key : List Char) (test : List Char → Option α)
    (cs : List Char) (h : findSubIdx key cs = none) :
    findKeyMatch key test cs = none := by
  induction cs with
  | nil => rfl
  | cons c rest ih =>
    unfold findSubIdx at h
    unfold findKeyMatch
    by_cases hp : key.isPrefixOf (c :: rest) = true
    · rw [if_pos hp] at h
      cases h
    · rw [if_neg hp] at h ⊢
      cases hr : findSubIdx key rest with
      | some i => rw [hr] at h; simp at h
      | none => exact ih hr

theorem extractFields_no_keys (block : List Char)
    (h1 : findSubIdx "TASK_COMPLETED:".data block = none)
    (h2 : findSubIdx "FILES_CREATED:".data block = none)
    (h3 : findSubIdx "NEXT_TASK:".data block = none)
    (h4 : findSubIdx "EXIT_SIGNAL:".data block = none)
    (h5 : findSubIdx "NOTES:".data block = none) :
    extractFields block = defaultRalphStatus := by
  unfold extractFields defaultRalphStatus
  rw [findKeyMatch_none _ quotedAfterWs block h1,
      findKeyMatch_none _ bracketAfterWs block h2,
      findKeyMatch_none _ quotedAfterWs block h3,
      findKeyMatch_none _ boolAfterWs block h4,
      findKeyMatch_none _ quotedAfterWs block h5]

/-- C5 (counterexample): the claim asserts that every text containing the
    RALPH_STATUS marker yields a status object.  The source regex ends the
    block at a blank line or at a literal letter z (the JS identity escape
    of the intended end anchor); a marker whose following text contains
    neither terminator does not match at all, and the parser returns no
    status. -/
theorem status_block_marker_counterexample :
    containsSub "RALPH_STATUS: EXIT_SIGNAL: true" "RALPH_STATUS:" = true
    ∧ parseRalphStatus "RALPH_STATUS: EXIT_SIGNAL: true" = none := by
  refine ⟨by decide, by decide⟩

/-- C5 (amended): the status-block parser is total (never throws); a text
    without the marker yields no status; a text whose marker is followed
    by a terminator (a blank line, or the letter z from the JS identity
    escape) always yields a status object; and a captured block containing
    none of the five sub-field keys yields the all-defaults status (empty
    strings, empty list, false) rather than failing. -/
theorem status_block_parse (text : String) :
    (containsSub text "RALPH_STATUS:" = false → parseRalphStatus text = none)
    ∧ (markerTerminated text.data = true → (parseRalphStatus text).isSome = true)
    ∧ (∀ block, capturedBlock text.data = some block →
        findSubIdx "TASK_COMPLETED:".data block = none →
        findSubIdx "FILES_CREATED:".data block = none →
        findSubIdx "NEXT_TASK:".data block = none →
        findSubIdx "EXIT_SIGNAL:".data block = none →
        findSubIdx "NOTES:".data block = none →
        parseRalphStatus text = some defaultRalphStatus) := by
  refine ⟨?_, ?_, ?_⟩
  · intro h
    unfold containsSub at h
    have h2 : findSubIdx ("RALPH_STATUS:").data text.data = none := by
      cases hx : findSubIdx ("RALPH_STATUS:").data text.data with
      | none => rfl
      | some i => rw [hx] at h; simp at h
    unfold parseRalphStatus capturedBlock ralphMarker
    rw [h2]
    rfl
  · intro h
    unfold markerTerminated at h
    unfold parseRalphStatus capturedBlock
    cases hx : findSubIdx ralphMarker text.data with
    | none => rw [hx] at h; simp at h
    | some i =>
      rw [hx] at h
      have h' : (findTermIdx (List.drop (i + 13) text.data)).isSome = true := h
      have hs := captureWLoop_isSome (List.drop (i + 13) text.data)
        ((List.takeWhile jsWs (List.drop (i + 13) text.data)).length) h'
      rw [Option.isSome_iff_exists] at hs
      obtain ⟨b, hbb⟩ := hs
      show (Option.map extractFields
        (statusCapture (List.drop (i + 13) text.data))).isSome = true
      unfold statusCapture
      rw [hbb]
      rfl
  · intro block hb k1 k2 k3 k4 k5
    unfold parseRalphStatus
    rw [hb]
    show some (extractFields block) = some defaultRalphStatus
    rw [extractFields_no_keys block k1 k2 k3 k4 k5]

/-- C5 (witness): the amended theorem at three concrete inputs — a
    marker-free text, a terminated block carrying EXIT_SIGNAL, and a
    terminated block with no recognizable sub-fields. -/
theorem status_block_parse_witness :
    parseRalphStatus "plain text" = none
    ∧ (parseRalphStatus "RALPH_STATUS: EXIT_SIGNAL: true\n\nok").isSome = true
    ∧ parseRalphStatus "RALPH_STATUS: nothing\n\nrest" = some defaultRalphStatus :=
  ⟨(status_block_parse "plain text").1 (by decide),
   (status_block_parse "RALPH_STATUS: EXIT_SIGNAL: true\n\nok").2.1 (by decide),
   (status_block_parse "RALPH_STATUS: nothing\n\nrest").2.2 ("nothing").data
     (by decide) (by decide) (by decide) (by decide) (by decide) (by decide)⟩

theorem processLine_event (jp : String → Option JVal) (line : String) :
    (match jp line with
     | some v => EventM.stdoutParsed v ∈ (processLine jp line).events
     | none => EventM.stdoutRaw line ∈ (processLine jp line).events) := by
  cases hj : jp line with
  | none => simp [processLine, hj]
  | some v =>
    simp only [processLine, hj]
    split
    · split
      · simp
      · simp
    · split
      · simp
      · simp
    · simp

/-- C8 (counterexample): the claim asserts no stdout line is ever dropped;
    but the handler skips a line whose trimmed form is empty, emitting no
    event at all: a chunk producing one whitespace-only complete line
    yields an empty event list. -/
theorem blank_line_dropped_counterexample :
    completeLines "" " \n" = [" "]
    ∧ chunkEvents jpAlwaysFail "" " \n" = [] := by
  refine ⟨by decide, rfl⟩

/-- C8 (amended): every complete stdout line whose trimmed form is
    nonempty is emitted — as a parsed structured event when the line
    parses as JSON, and verbatim as a raw-text event otherwise; no such
    line is dropped, and an unparseable line is never fatal (the handler
    is total).  Whitespace-only lines are silently skipped. -/
theorem stdout_line_forwarding (jp : String → Option JVal)
    (buffer chunk line : String) (hl : line ∈ completeLines buffer chunk)
    (ht : jsTrimStr line ≠ "") :
    (match jp line with
     | some v => EventM.stdoutParsed v ∈ chunkEvents jp buffer chunk
     | none => EventM.stdoutRaw line ∈ chunkEvents jp buffer chunk) := by
  have hev := processLine_event jp line
  unfold chunkEvents
  cases hj : jp line with
  | some v =>
    rw [hj] at hev
    refine List.mem_flatten.mpr ⟨(processLine jp line).events, ?_, hev⟩
    refine List.mem_map.mpr ⟨line, hl, ?_⟩
    rw [if_neg ht]
  | none =>
    rw [hj] at hev
    refine List.mem_flatten.mpr ⟨(processLine jp line).events, ?_, hev⟩
    refine List.mem_map.mpr ⟨line, hl, ?_⟩
    rw [if_neg ht]

/-- C8 (witness): a concrete non-JSON line is forwarded verbatim as a raw
    event. -/
theorem stdout_line_forwarding_witness :
    EventM.stdoutRaw "hello" ∈ chunkEvents jpAlwaysFail "" "hello\n" :=
  stdout_line_forwarding jpAlwaysFail "" "hello\n" "hello" (by decide) (by decide)

theorem review_enum_ne_empty (s : String) (h : reviewEnums.contains s = true) :
    s ≠ "" := by
  intro he
  subst he
  exact absurd h (by decide)

theorem fixStatusStr_mem (raw : String) :
    reviewEnums.contains (fixStatusStr raw) = true := by
  simp only [fixStatusStr]
  by_cases h1 : reviewEnums.contains raw.toUpper = true
  · rw [if_pos h1]
    exact h1
  · rw [if_neg h1]
    by_cases h2 : containsSub raw.toUpper "COMPLETE" = true
    · rw [if_pos h2]
      decide
    · rw [if_neg h2]
      by_cases h3 : containsSub raw.toUpper "PARTIAL" = true
      · rw [if_pos h3]
        decide
      · rw [if_neg h3]
        decide

theorem orFalsy_jstr (s : String) (d : JVal) (h : s ≠ "") :
    orFalsy (some (JVal.jstr s)) d = some (JVal.jstr s) := by
  simp [orFalsy, jtruthy, h]

theorem orFalsy_jnum (n : Int) :
    orFalsy (some (JVal.jnum n)) (JVal.jnum 0) = some (JVal.jnum n) := by
  by_cases hn : n = 0
  · subst hn
    simp [orFalsy, jtruthy]
  · simp [orFalsy, jtruthy, hn]

theorem statusEnumOk_spec (o : Option JVal) (h : statusEnumOk o = true) :
    ∃ s, o = some (JVal.jstr s) ∧ reviewEnums.contains s = true := by
  unfold statusEnumOk at h
  split at h
  · rename_i s
    exact ⟨s, rfl, h⟩
  · exact Bool.noConfusion h

theorem scoreRangeOk_spec (o : Option JVal) (h : scoreRangeOk o = true) :
    ∃ n, o = some (JVal.jnum n) := by
  unfold scoreRangeOk at h
  split at h
  · rename_i n
    exact ⟨n, rfl⟩
  · exact Bool.noConfusion h

theorem fix_ok_fields (v : JVal) (f : ReviewResultM)
    (h : fixReviewResultE v = .ok f) :
    f.reviewStatus
        = some (.jstr (fixStatusStr (jsStringFalsy (getField v "reviewStatus"))))
    ∧ f.overallScore = some (.jnum (fixScore (getField v "overallScore"))) := by
  unfold fixReviewResultE at h
  split at h
  · cases h
  · split at h
    · injection h with h1
      subst h1
      exact ⟨rfl, rfl⟩
    · cases h

theorem tierResult_props (parsed : JVal) (output : String) (r : ReviewResultM)
    (h : tierResult parsed output = some r) :
    (∃ s, r.reviewStatus = some (JVal.jstr s) ∧ reviewEnums.contains s = true)
    ∧ (∃ n, r.overallScore = some (JVal.jnum n)) := by
  unfold tierResult at h
  split at h
  · rename_i hv
    injection h with h1
    subst h1
    simp only [validateReviewResultWithDetails, Bool.and_eq_true] at hv
    obtain ⟨⟨⟨hobj, hst⟩, hsc⟩, hreq⟩ := hv
    obtain ⟨s, hso, hscont⟩ := statusEnumOk_spec _ hst
    obtain ⟨n, hno⟩ := scoreRangeOk_spec _ hsc
    exact ⟨⟨s, by show getField parsed "reviewStatus" = _; rw [hso], hscont⟩,
           ⟨n, by show getField parsed "overallScore" = _; rw [hno]⟩⟩
  · split at h
    · rename_i fixed hfix
      injection h with h1
      subst h1
      obtain ⟨hstat, hscore⟩ := fix_ok_fields parsed fixed hfix
      constructor
      · refine ⟨fixStatusStr (jsStringFalsy (getField parsed "reviewStatus")), ?_,
          fixStatusStr_mem _⟩
        show orFalsy ({fixed with rawOutput := some (JVal.jstr output)} :
          ReviewResultM).reviewStatus (.jstr "ERROR") = _
        rw [show ({fixed with rawOutput := some (JVal.jstr output)} :
          ReviewResultM).reviewStatus = fixed.reviewStatus from rfl, hstat]
        exact orFalsy_jstr _ _ (review_enum_ne_empty _ (fixStatusStr_mem _))
      · refine ⟨fixScore (getField parsed "overallScore"), ?_⟩
        show orFalsy ({fixed with rawOutput := some (JVal.jstr output)} :
          ReviewResultM).overallScore (.jnum 0) = _
        rw [show ({fixed with rawOutput := some (JVal.jstr output)} :
          ReviewResultM).overallScore = fixed.overallScore from rfl, hscore]
        exact orFalsy_jnum _
    · cases h

theorem tierCodeBlock_some (jp : String → Option JVal) (tc out : String)
    (r : ReviewResultM) (h : tierCodeBlock jp tc out = some r) :
    ∃ parsed, tierResult parsed out = some r := by
  unfold tierCodeBlock at h
  split at h
  · cases h
  · split at h
    · cases h
    · exact ⟨_, h⟩

theorem tierRawJson_some (jp : String → Option JVal) (tc out : String)
    (r : ReviewResultM) (h : tierRawJson jp tc out = some r) :
    ∃ parsed, tierResult parsed out = some r := by
  simp only [tierRawJson] at h
  split at h
  · cases h
  · split at h
    · cases h
    · exact ⟨_, h⟩

theorem findKeyMatch_some_test {α : Type} (key : List Char)
    (test : List Char → Option α) (cs : List Char) (a : α)
    (h : findKeyMatch key test cs = some a) :
    ∃ sub, test sub = some a := by
  induction cs with
  | nil => simp [findKeyMatch] at h
  | cons c rest ih =>
    unfold findKeyMatch at h
    by_cases hp : key.isPrefixOf (c :: rest) = true
    · rw [if_pos hp] at h
      cases ht : test ((c :: rest).drop key.length) with
      | some r =>
        rw [ht] at h
        injection h with h1
        subst h1
        exact ⟨_, ht⟩
      | none =>
        rw [ht] at h
        exact ih h
    · rw [if_neg hp] at h
      exact ih h

theorem statusKeywordAfter_cases (cs : List Char) (s : String)
    (h : statusKeywordAfter cs = some s) :
    reviewEnums.contains s = true := by
  unfold statusKeywordAfter at h
  split at h
  · cases h
  · split at h
    · injection h with h1
      subst h1
      decide
    · split at h
      · injection h with h1
        subst h1
        decide
      · split at h
        · injection h with h1
          subst h1
          decide
        · cases h

theorem extractPartial_fields (out : String) (p : ReviewResultM)
    (h : extractPartialReview out = some p) :
    (∃ s, p.reviewStatus = some (JVal.jstr s) ∧ reviewEnums.contains s = true)
    ∧ (∃ n, p.overallScore = some (JVal.jnum n)) := by
  simp only [extractPartialReview] at h
  split at h
  · injection h with h1
    subst h1
    constructor
    · refine ⟨(findKeyMatch ("reviewstatus").data statusKeywordAfter
        (out.data.map Char.toLower)).getD "ERROR", rfl, ?_⟩
      cases hk : findKeyMatch ("reviewstatus").data statusKeywordAfter
          (out.data.map Char.toLower) with
      | none => decide
      | some s2 =>
        obtain ⟨sub, hsub⟩ := findKeyMatch_some_test _ _ _ _ hk
        exact statusKeywordAfter_cases sub s2 hsub
    · exact ⟨_, rfl⟩
  · cases h

/-- C6 (counterexample): the claim asserts the returned numeric score is
    clamped to 0-100; but the best-effort extraction tier passes the
    parsed integer through unclamped, so a review output announcing an
    overall score of 999 yields a result whose score is 999. -/
theorem review_score_clamp_counterexample :
    (parseReviewOutput jpAlwaysFail "reviewStatus: COMPLETE overallScore: 999").map scoreOf
      = some (some 999)
    ∧ ¬ ((999 : Int) ≤ 100) := by
  refine ⟨by decide, by decide⟩

/-- C6 (amended): for every review output, the parser either returns no
    result (which the caller converts into an ERROR-status result, see the
    exit-code handling theorem) or a result whose status is a string that
    is one of the five enum values and whose score is numeric; it is total
    (never raises to the caller).  The score is NOT always clamped to
    0-100: the strict-validation tier guarantees the range, but a
    string-typed score or the best-effort extraction tier passes parsed
    integers through unclamped. -/
theorem review_parse_enum_status (jp : String → Option JVal) (output : String)
    (r : ReviewResultM) (h : parseReviewOutput jp output = some r) :
    (statusOf r).isSome = true
    ∧ reviewEnums.contains ((statusOf r).getD "") = true
    ∧ (scoreOf r).isSome = true := by
  have main :
      (∃ s, r.reviewStatus = some (JVal.jstr s) ∧ reviewEnums.contains s = true)
      ∧ (∃ n, r.overallScore = some (JVal.jnum n)) := by
    simp only [parseReviewOutput] at h
    split at h
    · rename_i r0 hcb
      injection h with h1
      subst h1
      obtain ⟨parsed, hp⟩ := tierCodeBlock_some _ _ _ _ hcb
      exact tierResult_props _ _ _ hp
    · split at h
      · rename_i r0 hrj
        injection h with h1
        subst h1
        obtain ⟨parsed, hp⟩ := tierRawJson_some _ _ _ _ hrj
        exact tierResult_props _ _ _ hp
      · split at h
        · rename_i p hpart
          injection h with h1
          subst h1
          obtain ⟨⟨s, hs, hscont⟩, n, hn⟩ := extractPartial_fields _ _ hpart
          constructor
          · refine ⟨s, ?_, hscont⟩
            show orFalsy ({p with rawOutput := some (JVal.jstr output)} :
              ReviewResultM).reviewStatus (.jstr "ERROR") = _
            rw [show ({p with rawOutput := some (JVal.jstr output)} :
              ReviewResultM).reviewStatus = p.reviewStatus from rfl, hs]
            exact orFalsy_jstr _ _ (review_enum_ne_empty _ hscont)
          · refine ⟨n, ?_⟩
            show orFalsy ({p with rawOutput := some (JVal.jstr output)} :
              ReviewResultM).overallScore (.jnum 0) = _
            rw [show ({p with rawOutput := some (JVal.jstr output)} :
              ReviewResultM).overallScore = p.overallScore from rfl, hn]
            exact orFalsy_jnum _
        · cases h
  obtain ⟨⟨s, hs, hscont⟩, n, hn⟩ := main
  have h1 : statusOf r = some s := by
    unfold statusOf
    rw [hs]
  have h2 : scoreOf r = some n := by
    unfold scoreOf
    rw [hn]
  rw [h1, h2]
  exact ⟨rfl, hscont, rfl⟩

/-- C6 (witness): the amended theorem at a concrete output handled by the
    best-effort tier. -/
theorem review_parse_enum_status_witness :
    reviewEnums.contains
      ((statusOf ((parseReviewOutput jpAlwaysFail "reviewStatus: COMPLETE").getD
        (createErrorReviewResult "" none))).getD "") = true :=
  (review_parse_enum_status jpAlwaysFail "reviewStatus: COMPLETE"
    ((parseReviewOutput jpAlwaysFail "reviewStatus: COMPLETE").getD
      (createErrorReviewResult "" none)) rfl).2.1

theorem str_length_pos (s : String) (h : s ≠ "") : s.length > 0 := by
  cases s with
  | mk l =>
    cases l with
    | nil => exact absurd rfl h
    | cons c cs => simp [String.length]

/-- C10: the review close handler treats a nonzero exit code with
    nonempty stdout exactly like exit code 0 — the accumulated stdout plus
    stderr goes to the review parser and the same result is produced;
    only a nonzero exit with empty stdout is converted into the explicit
    ERROR-status result carrying the exit-code message. -/
theorem review_exit_code_handling (jp : String → Option JVal) (code : Option Int)
    (stdout stderr : String) :
    (stdout ≠ "" → reviewRunOutcome jp code stdout stderr
        = reviewRunOutcome jp (some 0) stdout stderr)
    ∧ (code ≠ some 0 → stdout = "" →
        reviewRunOutcome jp code stdout stderr
          = createErrorReviewResult
              ("Review process exited with code " ++ showExitCode code ++ ": " ++ stderr)
              (some "")
        ∧ statusOf (reviewRunOutcome jp code stdout stderr) = some "ERROR") := by
  constructor
  · intro h
    have hlen := str_length_pos stdout h
    simp [reviewRunOutcome, reviewCloseOutput, hlen]
  · intro h1 h2
    subst h2
    have he : reviewRunOutcome jp code "" stderr
        = createErrorReviewResult
            ("Review process exited with code " ++ showExitCode code ++ ": " ++ stderr)
            (some "") := by
      simp [reviewRunOutcome, reviewCloseOutput, h1, String.length]
    exact ⟨he, by rw [he]; rfl⟩

/-- C10 (witness): the theorem at exit code 2 — with nonempty stdout the
    outcome equals the exit-code-0 outcome; with empty stdout the explicit
    error result is produced. -/
theorem review_exit_code_handling_witness :
    reviewRunOutcome jpAlwaysFail (some 2) "reviewStatus: PARTIAL" ""
      = reviewRunOutcome jpAlwaysFail (some 0) "reviewStatus: PARTIAL" ""
    ∧ statusOf (reviewRunOutcome jpAlwaysFail (some 2) "" "boom") = some "ERROR" :=
  ⟨(review_exit_code_handling jpAlwaysFail (some 2) "reviewStatus: PARTIAL" "").1
    (by decide),
   ((review_exit_code_handling jpAlwaysFail (some 2) "" "boom").2
    (by decide) rfl).2⟩

end LoopForge
